import Mathlib

/-!
# Verification of the appointment-slot reconciliation core

Shallow embedding of the repository's slot parsing, comparison, history
and notification logic (`src/slot_checker.py`, `src/workflow.py`,
`src/notifications.py`), together with proofs of the specification's
claims about it.

Python's JSON-like dynamic values are embedded as the inductive `JValue`;
Python truthiness, `dict.get`, the short-circuiting `or` operator, `str()`
and iteration are embedded as explicit functions on `JValue`.  Code paths
that can raise an uncaught exception are embedded in `Except Unit`; code
whose exceptions are caught and turned into "no record" returns `Option`.
-/

/-- A Python/JSON-like dynamic value.

Note: equality is modelled structurally; Python's numeric cross-type
equalities (`0 == False`) are not modelled, and no claim below depends on
them. -/
inductive JValue where
  | jnull : JValue
  | jbool (b : Bool) : JValue
  | jint (n : Int) : JValue
  | jstr (s : String) : JValue
  | jarr (xs : List JValue) : JValue
  | jobj (fields : List (String × JValue)) : JValue

open JValue

mutual

/-- Structural equality test on `JValue`. -/
def JValue.beq : JValue → JValue → Bool
  | jnull, jnull => true
  | jbool a, jbool b => a == b
  | jint a, jint b => a == b
  | jstr a, jstr b => a == b
  | jarr xs, jarr ys => JValue.beqList xs ys
  | jobj xs, jobj ys => JValue.beqFields xs ys
  | _, _ => false

/-- Equality test on lists of `JValue`. -/
def JValue.beqList : List JValue → List JValue → Bool
  | [], [] => true
  | x :: xs, y :: ys => JValue.beq x y && JValue.beqList xs ys
  | _, _ => false

/-- Equality test on field lists. -/
def JValue.beqFields : List (String × JValue) → List (String × JValue) → Bool
  | [], [] => true
  | (k, v) :: xs, (k', v') :: ys =>
      k == k' && JValue.beq v v' && JValue.beqFields xs ys
  | _, _ => false

end

mutual

theorem JValue.beq_iff : ∀ a b : JValue, JValue.beq a b = true ↔ a = b
  | jnull, b => by cases b <;> simp [JValue.beq]
  | jbool a, b => by cases b <;> simp [JValue.beq]
  | jint a, b => by cases b <;> simp [JValue.beq]
  | jstr a, b => by cases b <;> simp [JValue.beq]
  | jarr xs, b => by
      cases b <;> simp [JValue.beq]
      exact JValue.beqList_iff xs _
  | jobj xs, b => by
      cases b <;> simp [JValue.beq]
      exact JValue.beqFields_iff xs _

theorem JValue.beqList_iff : ∀ xs ys : List JValue, JValue.beqList xs ys = true ↔ xs = ys
  | [], ys => by cases ys <;> simp [JValue.beqList]
  | x :: xs, ys => by
      cases ys with
      | nil => simp [JValue.beqList]
      | cons y ys =>
          simp [JValue.beqList, Bool.and_eq_true, JValue.beq_iff x y,
            JValue.beqList_iff xs ys]

theorem JValue.beqFields_iff :
    ∀ xs ys : List (String × JValue), JValue.beqFields xs ys = true ↔ xs = ys
  | [], ys => by cases ys <;> simp [JValue.beqFields]
  | (k, v) :: xs, ys => by
      cases ys with
      | nil => simp [JValue.beqFields]
      | cons y ys =>
          obtain ⟨k', v'⟩ := y
          simp [JValue.beqFields, Bool.and_eq_true, JValue.beq_iff v v',
            JValue.beqFields_iff xs ys, Prod.ext_iff, and_assoc]

end

instance : DecidableEq JValue := fun a b =>
  decidable_of_iff (JValue.beq a b = true) (JValue.beq_iff a b)

/-- Python truthiness of a value (`bool(v)`): `None`, `False`, `0`, `""`,
`[]` and `{}` are falsy, everything else truthy. -/
def truthy : JValue → Bool
  | jnull => false
  | jbool b => b
  | jint n => n != 0
  | jstr s => !s.isEmpty
  | jarr xs => !xs.isEmpty
  | jobj f => !f.isEmpty

/-- Python's `a or b`: `a` if truthy, else `b`. -/
def pyOr (a b : JValue) : JValue :=
  if truthy a then a else b

/-- Association-list lookup, the embedding of Python `dict` access: the
value bound to the first occurrence of key `k`. -/
def lookupJ (f : List (String × JValue)) (k : String) : Option JValue :=
  (f.find? (fun p => p.1 = k)).map (fun p => p.2)

/-- Python `d.get(k, default)` on a dict. -/
def jgetD (f : List (String × JValue)) (k : String) (d : JValue) : JValue :=
  (lookupJ f k).getD d

/-- Python `d.get(k)` on a dict (default `None`). -/
def jget (f : List (String × JValue)) (k : String) : JValue :=
  jgetD f k jnull

/-- First truthy value of a candidate list, the embedding of a Python
`a or b or c ...` chain whose overall result is then truthiness-tested:
`none` exactly when every candidate is falsy. -/
def firstTruthy : List JValue → Option JValue
  | [] => none
  | v :: vs => if truthy v then some v else firstTruthy vs

/-! ## Python `str()` -/

/-- Decimal digits of a natural number, most significant first; the
first argument is recursion fuel (any fuel above the digit count gives
the digits). -/
def natDigitsAux : Nat → Nat → List Char
  | 0, _ => []
  | fuel + 1, n =>
      if n < 10 then [Char.ofNat (48 + n)]
      else natDigitsAux fuel (n / 10) ++ [Char.ofNat (48 + n % 10)]

/-- Decimal digits of a natural number, most significant first. -/
def natDigits (n : Nat) : List Char := natDigitsAux (n + 1) n

/-- Decimal string of a natural number. -/
def natStr (n : Nat) : String := String.mk (natDigits n)

/-- Python `str()` of an integer. -/
def intStr (n : Int) : String :=
  if n < 0 then "-" ++ natStr n.natAbs else natStr n.natAbs

/-- The single-quote character used by Python `repr` of strings. -/
def pyQuote : String := String.singleton (Char.ofNat 39)

mutual

/-- Python `repr()` of a value (string escaping inside quotes is not
modelled; no claim depends on it). -/
def pyRepr : JValue → String
  | jnull => "None"
  | jbool true => "True"
  | jbool false => "False"
  | jint n => intStr n
  | jstr s => pyQuote ++ s ++ pyQuote
  | jarr xs => "[" ++ pyReprList xs ++ "]"
  | jobj f => "\x7b" ++ pyReprFields f ++ "\x7d"

/-- Comma-separated `repr`s of list elements. -/
def pyReprList : List JValue → String
  | [] => ""
  | [x] => pyRepr x
  | x :: y :: xs => pyRepr x ++ ", " ++ pyReprList (y :: xs)

/-- Comma-separated `key: value` `repr`s of dict entries. -/
def pyReprFields : List (String × JValue) → String
  | [] => ""
  | [(k, v)] => pyQuote ++ k ++ pyQuote ++ ": " ++ pyRepr v
  | (k, v) :: y :: xs => pyQuote ++ k ++ pyQuote ++ ": " ++ pyRepr v ++ ", " ++ pyReprFields (y :: xs)

end

/-- Python `str()`: identity on strings, `repr` otherwise. -/
def pyStr : JValue → String
  | jstr s => s
  | v => pyRepr v

/-! ## Epic date encoding (`src/workflow.py`)

Python `datetime.date` arithmetic is embedded by representing a date by
its day number (days since 1970-01-01, proleptic Gregorian); conversion
between day numbers and `(year, month, day)` triples uses the standard
civil-calendar algorithm.  Python restricts dates to years 1..9999 and
raises `OverflowError` outside, which the embedding models with
`Option`. -/

/-- Day number (days since 1970-01-01) of a Gregorian calendar date. -/
def daysFromCivil (y m d : Int) : Int :=
  let y' := y - (if m ≤ 2 then 1 else 0)
  let era := (if 0 ≤ y' then y' else y' - 399) / 400
  let yoe := y' - era * 400
  let doy := (153 * (m + (if 2 < m then -3 else 9)) + 2) / 5 + d - 1
  let doe := yoe * 365 + yoe / 4 - yoe / 100 + doy
  era * 146097 + doe - 719468

/-- Gregorian calendar date `(year, month, day)` of a day number. -/
def civilFromDays (z : Int) : Int × Nat × Nat :=
  let z' := z + 719468
  let era := (if 0 ≤ z' then z' else z' - 146096) / 146097
  let doe := z' - era * 146097
  let yoe := (doe - doe / 1460 + doe / 36524 - doe / 146096) / 365
  let y := yoe + era * 400
  let doy := doe - (365 * yoe + yoe / 4 - yoe / 100)
  let mp := (5 * doy + 2) / 153
  let d := doy - (153 * mp + 2) / 5 + 1
  let m := if mp < 10 then mp + 3 else mp - 9
  (y + (if m ≤ 2 then 1 else 0), m.toNat, d.toNat)

/-- Day number of Python `date.min` (0001-01-01). -/
def pyDateMin : Int := daysFromCivil 1 1 1

/-- Day number of Python `date.max` (9999-12-31). -/
def pyDateMax : Int := daysFromCivil 9999 12 31

/-- Day number of the Epic epoch 1840-12-31
(`config.EPIC_DATE_EPOCH_YEAR/MONTH/DAY`). -/
def epicEpochDays : Int := daysFromCivil 1840 12 31

/-- `int_to_epic_date` (`src/workflow.py:38`): `epoch + timedelta(days = n)`.
`none` models the `OverflowError` Python raises when the result falls
outside `date.min .. date.max`. -/
def int_to_epic_date (n : Int) : Option Int :=
  let d := epicEpochDays + n
  if pyDateMin ≤ d ∧ d ≤ pyDateMax then some d else none

/-- `epic_date_to_int` (`src/workflow.py:24`): `(d - epoch).days`. -/
def epic_date_to_int (d : Int) : Int := d - epicEpochDays

/-- Left-pad with zeros to a given width. -/
def padZeros (w : Nat) (s : String) : String :=
  String.mk (List.replicate (w - s.length) '0') ++ s

/-- Python `date.isoformat()` of a day number: `YYYY-MM-DD`. -/
def isoDaysStr (z : Int) : String :=
  let c := civilFromDays z
  padZeros 4 (natStr c.1.toNat) ++ "-" ++ padZeros 2 (natStr c.2.1) ++ "-" ++
    padZeros 2 (natStr c.2.2)

/-! ## Slot records (`src/slot_checker.py`, `AppointmentSlot`) -/

/-- `AppointmentSlot` (`src/slot_checker.py:18`).  `date` and `time` are
strings after normalization; the remaining fields hold whatever dynamic
value the `or`-chains in `_parse_single_slot` produced (`jnull` models
Python `None`). -/
structure AppointmentSlot where
  date : String
  time : String
  provider : JValue := jnull
  department : JValue := jnull
  department_id : JValue := jnull
  slot_id : JValue := jnull
deriving DecidableEq

/-- The identity key `(date, time, department_id)` used by
`AppointmentSlot.__eq__` and `__hash__`. -/
def slotKey (s : AppointmentSlot) : String × String × JValue :=
  (s.date, s.time, s.department_id)

/-- `AppointmentSlot.__eq__` (`src/slot_checker.py:31`): tuple equality of
the identity keys. -/
def slotPyEq (a b : AppointmentSlot) : Bool :=
  decide ((a.date, a.time, a.department_id) = (b.date, b.time, b.department_id))

/-- Python `s in c` membership over a collection of slots, which uses
`__eq__`/`__hash__`, i.e. identity-key equality. -/
def inSlots (s : AppointmentSlot) (l : List AppointmentSlot) : Bool :=
  l.any (fun t => slotPyEq t s)

/-- `AppointmentSlot.to_dict` (`dataclasses.asdict`). -/
def slotToDict (s : AppointmentSlot) : JValue :=
  jobj [("date", jstr s.date), ("time", jstr s.time), ("provider", s.provider),
    ("department", s.department), ("department_id", s.department_id),
    ("slot_id", s.slot_id)]

/-! ## Slot parsing (`SlotParser`) -/

/-- The date extracted by `_parse_single_slot` for a dict record: the
`date_override` argument if truthy, else the first truthy value among the
`Date`/`date`/`AppointmentDate`/`StartDate` keys; `none` when all are
falsy or missing (the `if not slot_date` test). -/
def extractDate (ov : Option JValue) (f : List (String × JValue)) : Option JValue :=
  firstTruthy ((match ov with | some v => [v] | none => []) ++
    [jget f "Date", jget f "date", jget f "AppointmentDate", jget f "StartDate"])

/-- The time extracted by `_parse_single_slot`: the first truthy value
among the `Time`/`time`/`StartTime`/`DisplayTime` keys. -/
def extractTime (f : List (String × JValue)) : Option JValue :=
  firstTruthy [jget f "Time", jget f "time", jget f "StartTime", jget f "DisplayTime"]

/-- The date-normalization step of `_parse_single_slot`: an `int` date
(Python `isinstance(_, int)`, which includes `bool`) is converted through
`int_to_epic_date(..).isoformat()`; `none` models the caught
`OverflowError` for out-of-range integers.  Other values go through
`str()`. -/
def normalizeDate : JValue → Option String
  | jint n => (int_to_epic_date n).map isoDaysStr
  | jbool b => (int_to_epic_date (if b then 1 else 0)).map isoDaysStr
  | v => some (pyStr v)

/-- `SlotParser._parse_single_slot` (`src/slot_checker.py:142`).
Returns `none` both for the explicit `return None` on a missing
date/time and for any exception swallowed by the surrounding
`try/except` (`.get` on a non-dict, date overflow). -/
def parse_single_slot (data : JValue) (ov : Option JValue)
    (pr dep did : JValue) : Option AppointmentSlot :=
  match data with
  | jobj f =>
      match extractDate ov f with
      | none => none
      | some dv =>
          match extractTime f with
          | none => none
          | some tv =>
              (normalizeDate dv).map (fun ds =>
                { date := ds
                  time := pyStr tv
                  provider := pyOr (pyOr pr (jget f "ProviderName")) (jget f "Provider")
                  department := pyOr (pyOr dep (jget f "DepartmentName")) (jget f "Department")
                  department_id := pyOr (pyOr did (jget f "DepartmentId")) (jget f "DeptId")
                  slot_id := pyOr (jget f "Id") (jget f "SlotId") })
  | _ => none

/-- Python `for x in v` over a dynamic value: lists yield their elements,
strings their one-character substrings, dicts their keys; iterating
anything else raises `TypeError` (`error`). -/
def pyIter : JValue → Except Unit (List JValue)
  | jarr xs => .ok xs
  | jstr s => .ok (s.data.map (fun c => jstr (String.singleton c)))
  | jobj f => .ok (f.map (fun p => jstr p.1))
  | _ => .error ()

/-- `SlotParser._parse_slot_item` (`src/slot_checker.py:119`): a dict with
a truthy date and a truthy nested slot list is a day container whose date
is propagated as `date_override`; otherwise the item is tried as a single
slot.  Non-dict items yield `[]`.  Iterating a non-iterable `Slots` value
raises (`error`), uncaught here. -/
def parse_slot_item (item : JValue) : Except Unit (List AppointmentSlot) :=
  match item with
  | jobj f =>
      let day_date := pyOr (jget f "Date") (jget f "date")
      let day_slots := pyOr (jgetD f "Slots" (jarr [])) (jgetD f "slots" (jarr []))
      if truthy day_date && truthy day_slots then
        match pyIter day_slots with
        | .ok its =>
            .ok (its.filterMap (fun sd => parse_single_slot sd (some day_date) jnull jnull jnull))
        | .error e => .error e
      else
        .ok ((parse_single_slot item none jnull jnull jnull).toList)
  | _ => .ok []

/-- The `for item in container` loop body of `parse_slots`, over the
items of one list container. -/
def parseItemList : List JValue → Except Unit (List AppointmentSlot)
  | [] => .ok []
  | it :: rest =>
      match parse_slot_item it, parseItemList rest with
      | .ok a, .ok b => .ok (a ++ b)
      | .error e, _ => .error e
      | .ok _, .error e => .error e

/-- The first phase of `parse_slots`: each top-level container value is
processed only when it is a list (`isinstance(container, list)`); truthy
non-list containers are skipped. -/
def parseContainers : List JValue → Except Unit (List AppointmentSlot)
  | [] => .ok []
  | c :: rest =>
      match (match c with | jarr l => parseItemList l | _ => .ok []),
            parseContainers rest with
      | .ok a, .ok b => .ok (a ++ b)
      | .error e, _ => .error e
      | .ok _, .error e => .error e

/-- The `for provider in providers` loop of `parse_slots`
(`src/slot_checker.py:95`): `provider.get` on a non-dict element raises
uncaught (`error`). -/
def parseProviderList : List JValue → Except Unit (List AppointmentSlot)
  | [] => .ok []
  | p :: rest =>
      match p with
      | jobj pf =>
          let pname := pyOr (jget pf "Name") (jget pf "DisplayName")
          let pslots := pyOr (jgetD pf "Slots" (jarr [])) (jgetD pf "AvailableSlots" (jarr []))
          match pyIter pslots, parseProviderList rest with
          | .ok its, .ok b =>
              .ok (its.filterMap (fun sd => parse_single_slot sd none pname jnull jnull) ++ b)
          | .error e, _ => .error e
          | .ok _, .error e => .error e
      | _ => .error ()

/-- The `for dept in departments` loop of `parse_slots`
(`src/slot_checker.py:105`). -/
def parseDeptList : List JValue → Except Unit (List AppointmentSlot)
  | [] => .ok []
  | d :: rest =>
      match d with
      | jobj df =>
          let dname := pyOr (jget df "Name") (jget df "DisplayName")
          let did := pyOr (jget df "Id") (jget df "DepartmentId")
          let dslots := pyOr (jgetD df "Slots" (jarr [])) (jgetD df "AvailableSlots" (jarr []))
          match pyIter dslots, parseDeptList rest with
          | .ok its, .ok b =>
              .ok (its.filterMap (fun sd => parse_single_slot sd none jnull dname did) ++ b)
          | .error e, _ => .error e
          | .ok _, .error e => .error e
      | _ => .error ()

/-- `SlotParser.parse_slots` (`src/slot_checker.py:59`): probes the five
top-level containers, then the `Providers`/`providers` and
`Departments`/`departments` structures, concatenating all parsed slots.
`error` models an uncaught exception (non-dict response, non-iterable
providers/departments value, non-dict provider/department entry). -/
def parse_slots (response : JValue) : Except Unit (List AppointmentSlot) :=
  match response with
  | jobj f =>
      let conts := [jgetD f "Slots" (jarr []), jgetD f "AvailableSlots" (jarr []),
        jgetD f "slots" (jarr []), jgetD f "Days" (jarr []), jgetD f "AllDays" (jarr [])]
      let provs := pyOr (jgetD f "Providers" (jarr [])) (jgetD f "providers" (jarr []))
      let deps := pyOr (jgetD f "Departments" (jarr [])) (jgetD f "departments" (jarr []))
      match parseContainers conts with
      | .error e => .error e
      | .ok s1 =>
          match pyIter provs with
          | .error e => .error e
          | .ok pitems =>
              match parseProviderList pitems with
              | .error e => .error e
              | .ok s2 =>
                  match pyIter deps with
                  | .error e => .error e
                  | .ok ditems =>
                      match parseDeptList ditems with
                      | .error e => .error e
                      | .ok s3 => .ok (s1 ++ s2 ++ s3)
  | _ => .error ()

/-! ## Reconciliation (`compare_slots`, `src/slot_checker.py:262`) -/

/-- The result dict of `compare_slots`. -/
structure SlotDiff where
  new : List AppointmentSlot
  removed : List AppointmentSlot
  unchanged : List AppointmentSlot

/-- `compare_slots` (`src/slot_checker.py:262`).  `previous` is a Python
`Set[AppointmentSlot]`, embedded as the list of its (unordered) iteration;
all membership tests go through the identity-key equality `slotPyEq`, as
`set` containment does in the source. -/
def compare_slots (current previous : List AppointmentSlot) : SlotDiff where
  new := current.filter (fun s => !inSlots s previous)
  removed := previous.filter (fun s => !inSlots s current)
  unchanged := current.filter (fun s => inSlots s previous)

/-! ## History store (`SlotHistory`, `src/slot_checker.py:192`) -/

/-- State of the history file: absent, unreadable/unparseable (an
`IOError` or `json.JSONDecodeError` on read), or holding a parsed JSON
document.  `json.dump`/`json.load` round-tripping of `JValue` documents
is the identity, so `stored` keeps the document itself. -/
inductive HistFile where
  | missing
  | corrupt
  | stored (j : JValue)

/-- The default snapshot `{"last_check": None, "slots": [], "checks": []}`. -/
def defaultHistory : JValue :=
  jobj [("last_check", jnull), ("slots", jarr []), ("checks", jarr [])]

/-- `SlotHistory.load` (`src/slot_checker.py:199`): the parsed file when
present and readable, the default snapshot otherwise (missing file, or a
caught decode/IO error). -/
def SlotHistory.load : HistFile → JValue
  | .missing => defaultHistory
  | .corrupt => defaultHistory
  | .stored j => j

/-- Python `d[k] = v` / one key of `dict.update`: replace the value of an
existing key in place, else append the binding. -/
def setKey (f : List (String × JValue)) (k : String) (v : JValue) :
    List (String × JValue) :=
  if f.any (fun p => p.1 = k) then
    f.map (fun p => if p.1 = k then (k, v) else p)
  else f ++ [(k, v)]

/-- Python `l[-n:]`: the last `min n (length l)` elements, in order. -/
def lastN (n : Nat) (l : List α) : List α := l.drop (l.length - n)

/-- One call's worth of inputs to `SlotHistory.update`: the
`datetime.utcnow()` timestamp (the two `utcnow()` calls inside `update`
are modelled as one value), the `current_slots` argument and the
`raw_response` argument (`jnull` models the default `None`). -/
structure UpdateIn where
  ts : String
  current_slots : List AppointmentSlot
  raw_response : JValue := jnull

/-- The `check_record` dict built by `update`. -/
def mkCheckRecord (i : UpdateIn) : JValue :=
  jobj [("timestamp", jstr i.ts), ("slot_count", jint i.current_slots.length)]

/-- The core of `SlotHistory.update` (`src/slot_checker.py:224`) on an
already-loaded snapshot: append the check record to
`history.get("checks", [])`, truncate to the last 100, overwrite the
`last_check`/`slots`/`checks` keys, and store `last_raw_response` only
when `raw_response` is truthy.  `error` models the uncaught exceptions on
a non-dict history or a non-list `checks` value. -/
def histUpdate (history : JValue) (i : UpdateIn) : Except Unit JValue :=
  match history with
  | jobj f =>
      match jgetD f "checks" (jarr []) with
      | jarr cs =>
          let cs' := lastN 100 (cs ++ [mkCheckRecord i])
          let f1 := setKey f "last_check" (jstr i.ts)
          let f2 := setKey f1 "slots" (jarr (i.current_slots.map slotToDict))
          let f3 := setKey f2 "checks" (jarr cs')
          let f4 := if truthy i.raw_response
            then setKey f3 "last_raw_response" i.raw_response else f3
          .ok (jobj f4)
      | _ => .error ()
  | _ => .error ()

/-- `SlotHistory.update` including its internal `load()` and final
`save()`: the new file state holds the updated snapshot. -/
def SlotHistory.update (fs : HistFile) (i : UpdateIn) : Except Unit HistFile :=
  match histUpdate (SlotHistory.load fs) i with
  | .ok j => .ok (.stored j)
  | .error e => .error e

/-- A sequence of `SlotHistory.update` calls, left to right. -/
def iterUpdate (fs : HistFile) : List UpdateIn → Except Unit HistFile
  | [] => .ok fs
  | i :: rest =>
      match SlotHistory.update fs i with
      | .ok fs' => iterUpdate fs' rest
      | .error e => .error e

/-- The check log of a snapshot (`[]` when absent or not a list). -/
def checksOf (h : JValue) : List JValue :=
  match h with
  | jobj f =>
      match lookupJ f "checks" with
      | some (jarr l) => l
      | _ => []
  | _ => []

/-- Top-level key lookup on a snapshot. -/
def snapGet (h : JValue) (k : String) : Option JValue :=
  match h with
  | jobj f => lookupJ f k
  | _ => none

/-! ## Notification body (`GitHubNotifier._build_issue_body`,
`src/notifications.py:107`) -/

/-- Python string comparison `a <= b`: lexicographic by code point,
i.e. `¬ (b < a)` in the lexicographic strict order on the character
lists. -/
def strLe (a b : String) : Prop := ¬ List.Lex (· < ·) b.data a.data

instance : DecidableRel strLe := fun _ _ =>
  inferInstanceAs (Decidable (¬ _))

/-- Comparison used by `sorted(..., key=lambda s: s.time)`: Python string
order on the `time` field. -/
def slotTimeLe (a b : AppointmentSlot) : Prop := strLe a.time b.time

instance : DecidableRel slotTimeLe := fun a b =>
  inferInstanceAs (Decidable (strLe a.time b.time))

/-- The grouping step of `_build_issue_body`: bucket the slots by `date`
(dict insertion order collapses to the key set, since the keys are sorted
immediately after), iterate the date keys in Python `sorted` order, and
sort each bucket by the `time` string. -/
def groupSlotsByDate (slots : List AppointmentSlot) :
    List (String × List AppointmentSlot) :=
  (((slots.map (fun s => s.date)).dedup).insertionSort strLe).map
    (fun d => (d, (slots.filter (fun s => s.date = d)).insertionSort slotTimeLe))

/-- One `- **time** | Provider: .. | Dept: ..` line of the body. -/
def slotLine (s : AppointmentSlot) : String :=
  "- " ++ String.intercalate " | "
    (["**" ++ s.time ++ "**"] ++
      (if truthy s.provider then ["Provider: " ++ pyStr s.provider] else []) ++
      (if truthy s.department then ["Dept: " ++ pyStr s.department] else []))

/-- Characters before and after the first colon. -/
def specSplitColon : List Char → Option (List Char × List Char)
  | [] => none
  | c :: rest =>
      if c = ':' then some ([], rest)
      else (specSplitColon rest).map (fun p => (c :: p.1, p.2))

/-- Value of a non-empty all-digit character list. -/
def specDigitsValAux : Nat → List Char → Option Nat
  | acc, [] => some acc
  | acc, c :: rest =>
      if c.isDigit then specDigitsValAux (acc * 10 + (c.toNat - 48)) rest else none

/-- Value of a non-empty all-digit character list (`none` otherwise). -/
def specDigitsVal : List Char → Option Nat
  | [] => none
  | l => specDigitsValAux 0 l

/-- Spec-side definition, deliberately NOT taken from the code: the
claim's "time-of-day" ordering, read off a `"H:MM AM"`/`"H:MM PM"` time
string as minutes since midnight.  Used only to compare the code's
lexicographic time-string sort against chronological order. -/
def specTimeOfDayMinutes (t : String) : Option Nat :=
  match specSplitColon t.data with
  | none => none
  | some (h, rest) =>
      match specDigitsVal h, specDigitsVal (rest.take 2) with
      | some hh, some mi =>
          if rest.drop 2 = [' ', 'A', 'M'] then some ((hh % 12) * 60 + mi)
          else if rest.drop 2 = [' ', 'P', 'M'] then some ((hh % 12 + 12) * 60 + mi)
          else none
      | _, _ => none

/-- An 8:30 AM slot, for the notification-ordering counterexample. -/
def slotEightThirty : AppointmentSlot := { date := "2026-08-05", time := "8:30 AM" }

/-- A 10:00 AM slot on the same date. -/
def slotTenOClock : AppointmentSlot := { date := "2026-08-05", time := "10:00 AM" }

/-- `_build_issue_body` (`src/notifications.py:107`), with the
`datetime.utcnow()` header timestamp as a parameter. -/
def buildIssueBody (ts : String) (slots : List AppointmentSlot) : String :=
  String.intercalate "\n"
    (["## New Appointment Slots Detected", "",
      "**Detected at:** " ++ ts ++ " UTC", "",
      "### Available Slots", ""] ++
      (groupSlotsByDate slots).flatMap
        (fun g => ("#### " ++ g.1) :: g.2.map slotLine ++ [""]) ++
      ["---", "", "### Quick Links", "",
       "[Book Appointment](https://ucsfmychart.ucsfmedicalcenter.org/UCSFMyChart/Scheduling/Embedded)?dept=3202010,3202011&vt=1148",
       "", "---",
       "*This issue was automatically created by the appointment checker.*"])

/-- A well-formed snapshot in the sense of the persisted-snapshot format
(§6 of the spec): a JSON object whose `checks` key, when present, holds a
list.  `SlotHistory.update` raises on anything else. -/
def SnapOK (h : JValue) : Prop :=
  ∃ f, h = jobj f ∧
    (lookupJ f "checks" = none ∨ ∃ l, lookupJ f "checks" = some (jarr l))

instance : IsTotal String strLe :=
  ⟨fun a b => by
    by_cases h : List.Lex (· < ·) b.data a.data
    · exact Or.inr (asymm h)
    · exact Or.inl h⟩

instance : IsTrans String strLe :=
  ⟨fun a b c hab hbc hca => by
    haveI hT : IsTrichotomous (List Char) (List.Lex (· < ·)) := inferInstance
    haveI hTr : IsTrans (List Char) (List.Lex (· < ·)) := inferInstance
    rcases hT.trichotomous a.data b.data with h | h | h
    · exact hbc (hTr.trans _ _ _ hca h)
    · rw [h] at hca
      exact hbc hca
    · exact hab h⟩

instance : IsTotal AppointmentSlot slotTimeLe :=
  ⟨fun a b => total_of strLe a.time b.time⟩

instance : IsTrans AppointmentSlot slotTimeLe :=
  ⟨fun _ _ _ hab hbc => trans_of strLe hab hbc⟩

/-! # Theorems -/

/-! ## Helper lemmas -/

theorem slotPyEq_iff (a b : AppointmentSlot) :
    slotPyEq a b = true ↔ slotKey a = slotKey b := by
  simp [slotPyEq, slotKey]

theorem inSlots_iff (s : AppointmentSlot) (l : List AppointmentSlot) :
    inSlots s l = true ↔ ∃ t ∈ l, slotKey t = slotKey s := by
  simp [inSlots, List.any_eq_true, slotPyEq_iff]

theorem firstTruthy_some : ∀ {l : List JValue} {v : JValue},
    firstTruthy l = some v → truthy v = true := by
  intro l
  induction l with
  | nil => intro v h; simp [firstTruthy] at h
  | cons x xs ih =>
      intro v h
      by_cases hx : truthy x
      · simp [firstTruthy, hx] at h; subst h; exact hx
      · simp [firstTruthy, hx] at h; exact ih h

theorem natDigits_ne_nil (n : Nat) : natDigits n ≠ [] := by
  unfold natDigits natDigitsAux
  split <;> simp

theorem natStr_ne_empty (n : Nat) : natStr n ≠ "" := by
  intro h
  have : (natStr n).length = 0 := by rw [h]; rfl
  have hd := natDigits_ne_nil n
  simp [natStr] at this
  exact hd this

theorem intStr_ne_empty (n : Int) : intStr n ≠ "" := by
  unfold intStr
  split
  · intro h
    have h0 : ("-" ++ natStr n.natAbs).length = 0 := by rw [h]; rfl
    have h1 : ("-" : String).length = 1 := rfl
    rw [String.length_append, h1] at h0
    omega
  · exact natStr_ne_empty _

theorem pyStr_truthy_ne_empty : ∀ v : JValue, truthy v = true → pyStr v ≠ "" := by
  intro v hv
  cases v with
  | jnull => simp [truthy] at hv
  | jbool b =>
      cases b
      · simp [truthy] at hv
      · intro h; simp [pyStr, pyRepr] at h
  | jint n => exact intStr_ne_empty n
  | jstr s =>
      simp only [truthy, Bool.not_eq_true'] at hv
      intro h
      have hs : s = "" := h
      rw [hs] at hv
      exact absurd hv (by decide)
  | jarr xs =>
      intro h
      have h0 : (pyStr (jarr xs)).length = 0 := by rw [h]; rfl
      have h1 : ("[" : String).length = 1 := rfl
      have h2 : ("]" : String).length = 1 := rfl
      simp only [pyStr, pyRepr, String.length_append, h1, h2] at h0
      omega
  | jobj f =>
      intro h
      have h0 : (pyStr (jobj f)).length = 0 := by rw [h]; rfl
      have h1 : ("\x7b" : String).length = 1 := rfl
      have h2 : ("\x7d" : String).length = 1 := rfl
      simp only [pyStr, pyRepr, String.length_append, h1, h2] at h0
      omega

theorem isoDaysStr_ne_empty (z : Int) : isoDaysStr z ≠ "" := by
  intro h
  have h0 : (isoDaysStr z).length = 0 := by rw [h]; rfl
  have h1 : ("-" : String).length = 1 := rfl
  simp only [isoDaysStr, String.length_append, h1] at h0
  omega

theorem normalizeDate_ne_empty {dv : JValue} {ds : String}
    (hv : truthy dv = true) (h : normalizeDate dv = some ds) : ds ≠ "" := by
  cases dv with
  | jint n =>
      simp only [normalizeDate, Option.map_eq_some'] at h
      obtain ⟨d, _, rfl⟩ := h
      exact isoDaysStr_ne_empty d
  | jbool b =>
      simp only [normalizeDate, Option.map_eq_some'] at h
      obtain ⟨d, _, rfl⟩ := h
      exact isoDaysStr_ne_empty d
  | jnull => simp [truthy] at hv
  | jstr s =>
      simp only [normalizeDate, Option.some.injEq] at h
      subst h
      exact pyStr_truthy_ne_empty _ hv
  | jarr xs =>
      simp only [normalizeDate, Option.some.injEq] at h
      subst h
      exact pyStr_truthy_ne_empty _ hv
  | jobj f =>
      simp only [normalizeDate, Option.some.injEq] at h
      subst h
      exact pyStr_truthy_ne_empty _ hv

/-! ## C2: slot equality is identity-key equality -/

/-- C2: two slot records are equal under the equality used for set/hash
membership (`AppointmentSlot.__eq__`/`__hash__`) iff their
`(date, time, department_id)` tuples are equal; in particular records
differing only in `provider`, `department` or `slot_id` are equal. -/
theorem slot_equality_is_key_equality :
    (∀ a b : AppointmentSlot, slotPyEq a b = true ↔
      (a.date, a.time, a.department_id) = (b.date, b.time, b.department_id)) ∧
    (∀ (d t : String) (p p' dep dep' did sid sid' : JValue),
      slotPyEq ⟨d, t, p, dep, did, sid⟩ ⟨d, t, p', dep', did, sid'⟩ = true) := by
  constructor
  · intro a b
    simp [slotPyEq]
  · intro d t p p' dep dep' did sid sid'
    simp [slotPyEq]

/-! ## C3: epoch round-trip -/

/-- C3: for every day-offset `n` in `0..100000`,
`epic_date_to_int (int_to_epic_date n) = n`. -/
theorem epic_date_roundtrip (n : Int) (h0 : 0 ≤ n) (h1 : n ≤ 100000) :
    (int_to_epic_date n).map epic_date_to_int = some n := by
  have he : epicEpochDays = -47117 := by decide
  have hmin : pyDateMin = -719162 := by decide
  have hmax : pyDateMax = 2932896 := by decide
  have hc : pyDateMin ≤ epicEpochDays + n ∧ epicEpochDays + n ≤ pyDateMax := by
    rw [he, hmin, hmax]; omega
  simp only [int_to_epic_date, if_pos hc, Option.map_some', epic_date_to_int,
    Option.some.injEq]
  omega

/-- Witness for C3 at the spec's scenario input `n = 67800`. -/
theorem epic_date_roundtrip_witness :
    (int_to_epic_date 67800).map epic_date_to_int = some 67800 :=
  epic_date_roundtrip 67800 (by decide) (by decide)

/-! ## C7: load falls back to the default snapshot -/

/-- C7: `SlotHistory.load` returns the parsed persisted snapshot when the
file exists and parses, and the default snapshot (`last_check = null`, no
slots, no checks) when the file is missing or reading/parsing fails; it is
total (never raises). -/
theorem load_parses_or_defaults (fs : HistFile) :
    (∀ j, fs = .stored j → SlotHistory.load fs = j) ∧
    ((fs = .missing ∨ fs = .corrupt) → SlotHistory.load fs = defaultHistory) := by
  cases fs <;> simp [SlotHistory.load]

/-- Witness for C7: a stored snapshot is returned as-is, a missing file
yields the default snapshot. -/
theorem load_parses_or_defaults_witness :
    SlotHistory.load (.stored (jint 5)) = jint 5 ∧
    SlotHistory.load .missing = defaultHistory :=
  ⟨(load_parses_or_defaults (.stored (jint 5))).1 (jint 5) rfl,
   (load_parses_or_defaults .missing).2 (Or.inl rfl)⟩

/-! ## C9: falsy date values drop the record -/

/-- C9: a raw record whose date field holds the falsy value `0` or `""`
(with no date override) yields no record — `_parse_single_slot` tests
presence by truthiness — even though the integer `0` denotes the valid
epoch date 1840-12-31 under the Epic encoding. -/
theorem falsy_date_drops_record (tv z : JValue)
    (hz : z = jint 0 ∨ z = jstr "") :
    parse_single_slot (jobj [("Date", z), ("Time", tv)]) none jnull jnull jnull = none ∧
    (int_to_epic_date 0).map isoDaysStr = some "1840-12-31" := by
  constructor
  · have hd : extractDate none [("Date", z), ("Time", tv)] = none := by
      rcases hz with rfl | rfl <;> rfl
    simp [parse_single_slot, hd]
  · decide

/-- Witness for C9 at `Date = 0`, `Time = "8:30 AM"`. -/
theorem falsy_date_drops_record_witness :
    parse_single_slot (jobj [("Date", jint 0), ("Time", jstr "8:30 AM")])
      none jnull jnull jnull = none ∧
    (int_to_epic_date 0).map isoDaysStr = some "1840-12-31" :=
  falsy_date_drops_record (jstr "8:30 AM") (jint 0) (Or.inl rfl)

/-! ## C1: partition completeness of `compare_slots` -/

/-- C1: the identity keys of `new ++ unchanged` are exactly the identity
keys of `current`, and the identity keys of `removed ++ unchanged` are
exactly the identity keys of `previous`. -/
theorem compare_slots_partition (C P : List AppointmentSlot)
    (k : String × String × JValue) :
    (k ∈ ((compare_slots C P).new ++ (compare_slots C P).unchanged).map slotKey ↔
      k ∈ C.map slotKey) ∧
    (k ∈ ((compare_slots C P).removed ++ (compare_slots C P).unchanged).map slotKey ↔
      k ∈ P.map slotKey) := by
  constructor
  · simp only [List.map_append, List.mem_append, List.mem_map, compare_slots,
      List.mem_filter]
    constructor
    · rintro (⟨s, ⟨hsC, _⟩, rfl⟩ | ⟨s, ⟨hsC, _⟩, rfl⟩) <;> exact ⟨s, hsC, rfl⟩
    · rintro ⟨s, hsC, rfl⟩
      by_cases h : inSlots s P
      · exact Or.inr ⟨s, ⟨hsC, h⟩, rfl⟩
      · exact Or.inl ⟨s, ⟨hsC, by simp [h]⟩, rfl⟩
  · simp only [List.map_append, List.mem_append, List.mem_map, compare_slots,
      List.mem_filter]
    constructor
    · rintro (⟨s, ⟨hsP, _⟩, rfl⟩ | ⟨s, ⟨_, hs⟩, rfl⟩)
      · exact ⟨s, hsP, rfl⟩
      · obtain ⟨t, htP, htk⟩ := (inSlots_iff s P).mp hs
        exact ⟨t, htP, htk⟩
    · rintro ⟨s, hsP, rfl⟩
      by_cases h : inSlots s C
      · obtain ⟨c, hcC, hck⟩ := (inSlots_iff s C).mp h
        refine Or.inr ⟨c, ⟨hcC, (inSlots_iff c P).mpr ⟨s, hsP, hck.symm⟩⟩, hck⟩
      · exact Or.inl ⟨s, ⟨hsP, by simp [h]⟩, rfl⟩

/-! ## C6: duplicates in `current` are not deduplicated -/

/-- C6: `compare_slots` does not deduplicate `current`: for every identity
key, its multiplicity in `new` is its full multiplicity in `current` when
the key is absent from `previous` (else `0`), and its multiplicity in
`unchanged` is its full multiplicity in `current` when the key is present
in `previous` (else `0`), so a duplicated identity appears as often as it
occurs in `current`; membership tests collapse duplicates — duplicating an
element of `current` leaves `removed` unchanged. -/
theorem compare_slots_no_dedup (C P : List AppointmentSlot)
    (k : String × String × JValue) :
    ((compare_slots C P).new.countP (fun s => slotKey s = k) =
      if ∃ t ∈ P, slotKey t = k then 0 else C.countP (fun s => slotKey s = k)) ∧
    ((compare_slots C P).unchanged.countP (fun s => slotKey s = k) =
      if ∃ t ∈ P, slotKey t = k then C.countP (fun s => slotKey s = k) else 0) ∧
    (∀ s, (compare_slots (s :: s :: C) P).removed =
      (compare_slots (s :: C) P).removed) := by
  refine ⟨?_, ?_, ?_⟩
  · by_cases h : ∃ t ∈ P, slotKey t = k
    · rw [if_pos h]
      rw [List.countP_eq_zero]
      rintro s hs
      simp only [compare_slots, List.mem_filter] at hs
      obtain ⟨hsC, hns⟩ := hs
      simp only [decide_eq_true_eq]
      rintro rfl
      obtain ⟨t, htP, htk⟩ := h
      have : inSlots s P = true := (inSlots_iff s P).mpr ⟨t, htP, htk⟩
      simp [this] at hns
    · rw [if_neg h]
      rw [List.countP_eq_length_filter, List.countP_eq_length_filter]
      congr 1
      simp only [compare_slots, List.filter_filter]
      apply List.filter_congr
      intro s _
      by_cases hk : slotKey s = k
      · have : inSlots s P = false := by
          rw [Bool.eq_false_iff]
          intro hmem
          obtain ⟨t, htP, htk⟩ := (inSlots_iff s P).mp hmem
          exact h ⟨t, htP, by rw [htk, hk]⟩
        simp [hk, this]
      · simp [hk]
  · by_cases h : ∃ t ∈ P, slotKey t = k
    · rw [if_pos h]
      rw [List.countP_eq_length_filter, List.countP_eq_length_filter]
      congr 1
      simp only [compare_slots, List.filter_filter]
      apply List.filter_congr
      intro s _
      by_cases hk : slotKey s = k
      · have : inSlots s P = true := by
          obtain ⟨t, htP, htk⟩ := h
          exact (inSlots_iff s P).mpr ⟨t, htP, by rw [htk, hk]⟩
        simp [hk, this]
      · simp [hk]
    · rw [if_neg h]
      rw [List.countP_eq_zero]
      rintro s hs
      simp only [compare_slots, List.mem_filter] at hs
      obtain ⟨hsC, hmem⟩ := hs
      simp only [decide_eq_true_eq]
      rintro rfl
      obtain ⟨t, htP, htk⟩ := (inSlots_iff s P).mp hmem
      exact h ⟨t, htP, htk⟩
  · intro s
    simp only [compare_slots]
    apply List.filter_congr
    intro t _
    have : inSlots t (s :: s :: C) = inSlots t (s :: C) := by
      simp only [inSlots, List.any_cons]
      cases slotPyEq s t <;> simp
    rw [this]

/-! ## Lemmas on `setKey`/`lookupJ` -/

theorem lookupJ_cons (p : String × JValue) (rest : List (String × JValue))
    (k : String) :
    lookupJ (p :: rest) k = if p.1 = k then some p.2 else lookupJ rest k := by
  by_cases hp : p.1 = k <;> simp [lookupJ, List.find?_cons, hp]

theorem lookupJ_map_setKey (k : String) (v : JValue) (k' : String) (h : k' ≠ k) :
    ∀ f : List (String × JValue),
      lookupJ (f.map (fun p => if p.1 = k then (k, v) else p)) k' = lookupJ f k' := by
  intro f
  induction f with
  | nil => rfl
  | cons p rest ih =>
      by_cases hp : p.1 = k
      · have h1 : ¬ (k = k') := fun hh => h hh.symm
        have h2 : ¬ (p.1 = k') := by rw [hp]; exact h1
        rw [List.map_cons, if_pos hp, lookupJ_cons, lookupJ_cons, if_neg h1, if_neg h2]
        exact ih
      · rw [List.map_cons, if_neg hp, lookupJ_cons, lookupJ_cons]
        by_cases hp' : p.1 = k'
        · rw [if_pos hp', if_pos hp']
        · rw [if_neg hp', if_neg hp']
          exact ih

theorem lookupJ_append_single_ne (f : List (String × JValue)) (k : String)
    (v : JValue) (k' : String) (h : k' ≠ k) :
    lookupJ (f ++ [(k, v)]) k' = lookupJ f k' := by
  induction f with
  | nil =>
      have h1 : ¬ (k = k') := fun hh => h hh.symm
      simp [lookupJ_cons, h1, lookupJ]
  | cons p rest ih =>
      rw [List.cons_append, lookupJ_cons, lookupJ_cons]
      by_cases hp : p.1 = k'
      · rw [if_pos hp, if_pos hp]
      · rw [if_neg hp, if_neg hp]
        exact ih

theorem lookupJ_setKey_self (f : List (String × JValue)) (k : String) (v : JValue) :
    lookupJ (setKey f k v) k = some v := by
  unfold setKey
  split
  · rename_i h
    revert h
    induction f with
    | nil => intro h; simp at h
    | cons p rest ih =>
        intro h
        by_cases hp : p.1 = k
        · rw [List.map_cons, if_pos hp, lookupJ_cons, if_pos rfl]
        · rw [List.map_cons, if_neg hp, lookupJ_cons, if_neg hp]
          apply ih
          simp only [List.any_cons] at h
          simpa [hp] using h
  · rename_i h
    have hf : f.find? (fun p => decide (p.1 = k)) = none := by
      rw [List.find?_eq_none]
      intro p hp
      simp only [List.any_eq_true, not_exists, not_and] at h
      simpa using h p hp
    simp [lookupJ, List.find?_append, hf, List.find?_cons]

theorem lookupJ_setKey_ne (f : List (String × JValue)) (k : String) (v : JValue)
    (k' : String) (h : k' ≠ k) :
    lookupJ (setKey f k v) k' = lookupJ f k' := by
  unfold setKey
  split
  · exact lookupJ_map_setKey k v k' h f
  · exact lookupJ_append_single_ne f k v k' h




/-! ## C10: `update` only overwrites its own keys -/

/-- C10: a successful `update` with no `raw_response` argument rewrites
only the `last_check`, `slots` and `checks` keys of the loaded snapshot;
every other top-level key keeps its previous value in the newly written
snapshot. -/
theorem update_frame (h : JValue) (i : UpdateIn) (h' : JValue)
    (hraw : i.raw_response = jnull) (he : histUpdate h i = .ok h') :
    ∀ k, k ∉ (["last_check", "slots", "checks"] : List String) →
      snapGet h' k = snapGet h k := by
  intro k hk
  simp only [List.mem_cons, List.not_mem_nil, or_false, not_or] at hk
  obtain ⟨hk1, hk2, hk3⟩ := hk
  cases h with
  | jobj f =>
      simp only [histUpdate, hraw] at he
      split at he
      · rename_i cs heq
        have hfalse : truthy jnull = false := rfl
        rw [hfalse] at he
        simp only [Bool.false_eq_true, if_false, Except.ok.injEq] at he
        subst he
        simp only [snapGet]
        rw [lookupJ_setKey_ne _ _ _ _ hk3, lookupJ_setKey_ne _ _ _ _ hk2,
          lookupJ_setKey_ne _ _ _ _ hk1]
      · simp at he
  | jnull => simp [histUpdate] at he
  | jbool b => simp [histUpdate] at he
  | jint n => simp [histUpdate] at he
  | jstr s => simp [histUpdate] at he
  | jarr xs => simp [histUpdate] at he

/-- Witness for C10: updating a snapshot that carries an extra
`last_raw_response` key (with no raw response passed) leaves that key's
value untouched. -/
theorem update_frame_witness :
    snapGet (jobj [("last_raw_response", jint 7), ("last_check", jstr "T"),
        ("slots", jarr []),
        ("checks", jarr [jobj [("timestamp", jstr "T"), ("slot_count", jint 0)]])])
      "last_raw_response" =
    snapGet (jobj [("last_raw_response", jint 7)]) "last_raw_response" :=
  update_frame (jobj [("last_raw_response", jint 7)])
    ⟨"T", [], jnull⟩ _ rfl rfl "last_raw_response" (by decide)

/-! ## Lemmas on `lastN` -/

theorem lastN_eq_reverse_take (n : Nat) (l : List α) :
    lastN n l = (l.reverse.take n).reverse := by
  rw [List.take_reverse, List.reverse_reverse, lastN]

theorem length_lastN (n : Nat) (l : List α) :
    (lastN n l).length = min n l.length := by
  simp only [lastN, List.length_drop]
  omega

theorem lastN_append_of_le_length (n : Nat) (a b : List α) (h : n ≤ b.length) :
    lastN n (a ++ b) = lastN n b := by
  rw [lastN_eq_reverse_take, lastN_eq_reverse_take, List.reverse_append,
    List.take_append_of_le_length (by simpa using h)]

theorem lastN_lastN_append (n : Nat) (a b : List α) :
    lastN n (lastN n a ++ b) = lastN n (a ++ b) := by
  rw [lastN_eq_reverse_take n a, lastN_eq_reverse_take, lastN_eq_reverse_take,
    List.reverse_append, List.reverse_append, List.reverse_reverse,
    List.take_append_eq_append_take, List.take_append_eq_append_take,
    List.take_take]
  congr 3
  omega

/-! ## C5: the check log is capped at 100 entries -/

theorem histUpdate_ok_of_snapOK (h : JValue) (i : UpdateIn) (hOK : SnapOK h) :
    ∃ h', histUpdate h i = .ok h' ∧ SnapOK h' ∧
      checksOf h' = lastN 100 (checksOf h ++ [mkCheckRecord i]) := by
  obtain ⟨f, rfl, hch⟩ := hOK
  obtain ⟨cs, hgd, hcs⟩ :
      ∃ cs, jgetD f "checks" (jarr []) = jarr cs ∧ checksOf (jobj f) = cs := by
    rcases hch with hnone | ⟨l, hl⟩
    · exact ⟨[], by simp [jgetD, hnone], by simp [checksOf, hnone]⟩
    · exact ⟨l, by simp [jgetD, hl], by simp [checksOf, hl]⟩
  rw [hcs]
  by_cases hr : truthy i.raw_response
  · refine ⟨jobj (setKey (setKey (setKey (setKey f "last_check" (jstr i.ts)) "slots"
      (jarr (i.current_slots.map slotToDict))) "checks"
      (jarr (lastN 100 (cs ++ [mkCheckRecord i])))) "last_raw_response" i.raw_response),
      ?_, ?_, ?_⟩
    · simp only [histUpdate, hgd, hr, if_true]
    · refine ⟨_, rfl, Or.inr ⟨lastN 100 (cs ++ [mkCheckRecord i]), ?_⟩⟩
      rw [lookupJ_setKey_ne _ _ _ _ (by decide), lookupJ_setKey_self]
    · have hx : lookupJ (setKey (setKey (setKey (setKey f "last_check" (jstr i.ts)) "slots"
          (jarr (i.current_slots.map slotToDict))) "checks"
          (jarr (lastN 100 (cs ++ [mkCheckRecord i])))) "last_raw_response" i.raw_response)
          "checks" = some (jarr (lastN 100 (cs ++ [mkCheckRecord i]))) := by
        rw [lookupJ_setKey_ne _ _ _ _ (by decide), lookupJ_setKey_self]
      simp [checksOf, hx]
  · refine ⟨jobj (setKey (setKey (setKey f "last_check" (jstr i.ts)) "slots"
      (jarr (i.current_slots.map slotToDict))) "checks"
      (jarr (lastN 100 (cs ++ [mkCheckRecord i])))), ?_, ?_, ?_⟩
    · simp only [histUpdate, hgd, Bool.not_eq_true] at hr ⊢
      simp only [hr, Bool.false_eq_true, if_false]
    · exact ⟨_, rfl, Or.inr ⟨_, lookupJ_setKey_self _ _ _⟩⟩
    · have hx : lookupJ (setKey (setKey (setKey f "last_check" (jstr i.ts)) "slots"
          (jarr (i.current_slots.map slotToDict))) "checks"
          (jarr (lastN 100 (cs ++ [mkCheckRecord i])))) "checks" =
          some (jarr (lastN 100 (cs ++ [mkCheckRecord i]))) := lookupJ_setKey_self _ _ _
      simp [checksOf, hx]

theorem iterUpdate_cons_ok (i : UpdateIn) (rest : List UpdateIn) :
    ∀ fs : HistFile, SnapOK (SlotHistory.load fs) →
      ∃ fs', iterUpdate fs (i :: rest) = .ok fs' ∧ SnapOK (SlotHistory.load fs') ∧
        checksOf (SlotHistory.load fs') =
          lastN 100 (checksOf (SlotHistory.load fs) ++ (i :: rest).map mkCheckRecord) := by
  induction rest generalizing i with
  | nil =>
      intro fs hOK
      obtain ⟨j, hj, hsOK, hcs⟩ := histUpdate_ok_of_snapOK _ i hOK
      refine ⟨.stored j, ?_, by simpa [SlotHistory.load] using hsOK, ?_⟩
      · simp [iterUpdate, SlotHistory.update, hj]
      · simpa [SlotHistory.load] using hcs
  | cons i2 rest ih =>
      intro fs hOK
      obtain ⟨j, hj, hsOK, hcs⟩ := histUpdate_ok_of_snapOK _ i hOK
      obtain ⟨fs', hit, hOK', hcs'⟩ :=
        ih i2 (.stored j) (by simpa [SlotHistory.load] using hsOK)
      refine ⟨fs', ?_, hOK', ?_⟩
      · simp only [iterUpdate, SlotHistory.update, hj]
        exact hit
      · rw [hcs']
        simp only [SlotHistory.load] at hcs ⊢
        rw [hcs, lastN_lastN_append, List.append_assoc, List.singleton_append]
        simp [List.map_cons]

theorem histUpdate_checks_le (h : JValue) (i : UpdateIn) (h' : JValue)
    (he : histUpdate h i = .ok h') : (checksOf h').length ≤ 100 := by
  cases h with
  | jobj f =>
      simp only [histUpdate] at he
      split at he
      · rename_i cs heq
        by_cases hr : truthy i.raw_response
        · simp only [hr, if_true, Except.ok.injEq] at he
          subst he
          have hx := lookupJ_setKey_ne
            (setKey (setKey (setKey f "last_check" (jstr i.ts)) "slots"
              (jarr (i.current_slots.map slotToDict))) "checks"
              (jarr (lastN 100 (cs ++ [mkCheckRecord i]))))
            "last_raw_response" i.raw_response "checks" (by decide)
          rw [lookupJ_setKey_self] at hx
          simp only [checksOf, hx]
          rw [length_lastN]
          omega
        · simp only [Bool.not_eq_true] at hr
          simp only [hr, Bool.false_eq_true, if_false, Except.ok.injEq] at he
          subst he
          have hx := lookupJ_setKey_self
            (setKey (setKey f "last_check" (jstr i.ts)) "slots"
              (jarr (i.current_slots.map slotToDict))) "checks"
            (jarr (lastN 100 (cs ++ [mkCheckRecord i])))
          simp only [checksOf, hx]
          rw [length_lastN]
          omega
      · simp at he
  | jnull => simp [histUpdate] at he
  | jbool b => simp [histUpdate] at he
  | jint n => simp [histUpdate] at he
  | jstr s => simp [histUpdate] at he
  | jarr xs => simp [histUpdate] at he

/-- C5: starting from any well-formed history state, a sequence of 150
`update` calls succeeds and leaves a persisted check log of length
exactly 100, holding the check records of the 100 most recent updates in
append order; moreover any single successful `update` leaves the check
log with at most 100 entries. -/
theorem history_cap (fs : HistFile) (ins : List UpdateIn)
    (hOK : SnapOK (SlotHistory.load fs)) (hlen : ins.length = 150) :
    (∃ fs', iterUpdate fs ins = .ok fs' ∧
       checksOf (SlotHistory.load fs') = lastN 100 (ins.map mkCheckRecord) ∧
       (checksOf (SlotHistory.load fs')).length = 100) ∧
    (∀ (gs : HistFile) (i : UpdateIn) (gs' : HistFile),
       SlotHistory.update gs i = .ok gs' →
       (checksOf (SlotHistory.load gs')).length ≤ 100) := by
  constructor
  · match ins, hlen with
    | i :: rest, hlen =>
        obtain ⟨fs', hit, _, hcs⟩ := iterUpdate_cons_ok i rest fs hOK
        have hlen' : ((i :: rest).map mkCheckRecord).length = 150 := by
          simpa using hlen
        have hfinal : checksOf (SlotHistory.load fs') =
            lastN 100 ((i :: rest).map mkCheckRecord) := by
          rw [hcs, lastN_append_of_le_length]
          omega
        refine ⟨fs', hit, hfinal, ?_⟩
        rw [hfinal, length_lastN, hlen']
        omega
  · intro gs i gs' hupd
    simp only [SlotHistory.update] at hupd
    split at hupd
    · rename_i j hj
      have := histUpdate_checks_le _ i _ hj
      simp only [Except.ok.injEq] at hupd
      subst hupd
      simpa [SlotHistory.load] using this
    · simp at hupd

/-- Witness for C5: 150 updates from a fresh (missing) history file leave
exactly 100 check entries. -/
theorem history_cap_witness :
    ∃ fs', iterUpdate .missing (List.replicate 150 ⟨"T", [], jnull⟩) = .ok fs' ∧
      checksOf (SlotHistory.load fs') =
        lastN 100 ((List.replicate 150 (⟨"T", [], jnull⟩ : UpdateIn)).map mkCheckRecord) ∧
      (checksOf (SlotHistory.load fs')).length = 100 :=
  (history_cap .missing (List.replicate 150 ⟨"T", [], jnull⟩)
    ⟨_, rfl, Or.inr ⟨[], rfl⟩⟩ (by simp)).1

/-! ## C4: normalized records always carry a date and a time -/

theorem parse_single_slot_ok {data : JValue} {ov : Option JValue}
    {pr dep did : JValue} {s : AppointmentSlot}
    (h : parse_single_slot data ov pr dep did = some s) :
    s.date ≠ "" ∧ s.time ≠ "" := by
  cases data with
  | jobj f =>
      simp only [parse_single_slot] at h
      cases hd : extractDate ov f with
      | none => rw [hd] at h; simp at h
      | some dv =>
          rw [hd] at h
          cases ht : extractTime f with
          | none => rw [ht] at h; simp at h
          | some tv =>
              rw [ht] at h
              simp only [Option.map_eq_some'] at h
              obtain ⟨ds, hn, rfl⟩ := h
              have hdv : truthy dv = true := firstTruthy_some hd
              have htv : truthy tv = true := firstTruthy_some ht
              exact ⟨normalizeDate_ne_empty hdv hn, pyStr_truthy_ne_empty tv htv⟩
  | jnull => simp [parse_single_slot] at h
  | jbool b => simp [parse_single_slot] at h
  | jint n => simp [parse_single_slot] at h
  | jstr str => simp [parse_single_slot] at h
  | jarr xs => simp [parse_single_slot] at h

theorem filterMap_parse_ok {items : List JValue} {ov : Option JValue}
    {pr dep did : JValue} {s : AppointmentSlot}
    (h : s ∈ items.filterMap (fun sd => parse_single_slot sd ov pr dep did)) :
    s.date ≠ "" ∧ s.time ≠ "" := by
  obtain ⟨a, _, ha⟩ := List.mem_filterMap.mp h
  exact parse_single_slot_ok ha

theorem parse_slot_item_ok {it : JValue} {r : List AppointmentSlot}
    (h : parse_slot_item it = .ok r) :
    ∀ s ∈ r, s.date ≠ "" ∧ s.time ≠ "" := by
  intro s hs
  cases it with
  | jobj f =>
      simp only [parse_slot_item] at h
      split at h
      · split at h
        · simp only [Except.ok.injEq] at h
          subst h
          exact filterMap_parse_ok hs
        · simp at h
      · simp only [Except.ok.injEq] at h
        subst h
        rw [Option.mem_toList] at hs
        exact parse_single_slot_ok hs
  | jnull => simp only [parse_slot_item, Except.ok.injEq] at h; subst h; simp at hs
  | jbool b => simp only [parse_slot_item, Except.ok.injEq] at h; subst h; simp at hs
  | jint n => simp only [parse_slot_item, Except.ok.injEq] at h; subst h; simp at hs
  | jstr str => simp only [parse_slot_item, Except.ok.injEq] at h; subst h; simp at hs
  | jarr xs => simp only [parse_slot_item, Except.ok.injEq] at h; subst h; simp at hs

theorem parseItemList_ok {items : List JValue} {r : List AppointmentSlot}
    (h : parseItemList items = .ok r) :
    ∀ s ∈ r, s.date ≠ "" ∧ s.time ≠ "" := by
  induction items generalizing r with
  | nil =>
      simp only [parseItemList, Except.ok.injEq] at h
      subst h
      simp
  | cons it rest ih =>
      intro s hs
      simp only [parseItemList] at h
      split at h
      · rename_i a b ha hb
        simp only [Except.ok.injEq] at h
        subst h
        rcases List.mem_append.mp hs with h1 | h2
        · exact parse_slot_item_ok ha s h1
        · exact ih hb s h2
      · simp at h
      · simp at h

theorem parseContainers_ok {cs : List JValue} {r : List AppointmentSlot}
    (h : parseContainers cs = .ok r) :
    ∀ s ∈ r, s.date ≠ "" ∧ s.time ≠ "" := by
  induction cs generalizing r with
  | nil =>
      simp only [parseContainers, Except.ok.injEq] at h
      subst h
      simp
  | cons c rest ih =>
      intro s hs
      simp only [parseContainers] at h
      split at h
      · rename_i a b ha hb
        simp only [Except.ok.injEq] at h
        subst h
        rcases List.mem_append.mp hs with h1 | h2
        · cases c with
          | jarr l => exact parseItemList_ok ha s h1
          | jnull => simp only [Except.ok.injEq] at ha; subst ha; simp at h1
          | jbool b' => simp only [Except.ok.injEq] at ha; subst ha; simp at h1
          | jint n => simp only [Except.ok.injEq] at ha; subst ha; simp at h1
          | jstr str => simp only [Except.ok.injEq] at ha; subst ha; simp at h1
          | jobj f => simp only [Except.ok.injEq] at ha; subst ha; simp at h1
        · exact ih hb s h2
      · simp at h
      · simp at h

theorem parseProviderList_ok {ps : List JValue} {r : List AppointmentSlot}
    (h : parseProviderList ps = .ok r) :
    ∀ s ∈ r, s.date ≠ "" ∧ s.time ≠ "" := by
  induction ps generalizing r with
  | nil =>
      simp only [parseProviderList, Except.ok.injEq] at h
      subst h
      simp
  | cons p rest ih =>
      intro s hs
      cases p with
      | jobj pf =>
          simp only [parseProviderList] at h
          split at h
          · rename_i its b hits hb
            simp only [Except.ok.injEq] at h
            subst h
            rcases List.mem_append.mp hs with h1 | h2
            · exact filterMap_parse_ok h1
            · exact ih hb s h2
          · simp at h
          · simp at h
      | jnull => simp [parseProviderList] at h
      | jbool b => simp [parseProviderList] at h
      | jint n => simp [parseProviderList] at h
      | jstr str => simp [parseProviderList] at h
      | jarr xs => simp [parseProviderList] at h

theorem parseDeptList_ok {ds : List JValue} {r : List AppointmentSlot}
    (h : parseDeptList ds = .ok r) :
    ∀ s ∈ r, s.date ≠ "" ∧ s.time ≠ "" := by
  induction ds generalizing r with
  | nil =>
      simp only [parseDeptList, Except.ok.injEq] at h
      subst h
      simp
  | cons d rest ih =>
      intro s hs
      cases d with
      | jobj df =>
          simp only [parseDeptList] at h
          split at h
          · rename_i its b hits hb
            simp only [Except.ok.injEq] at h
            subst h
            rcases List.mem_append.mp hs with h1 | h2
            · exact filterMap_parse_ok h1
            · exact ih hb s h2
          · simp at h
          · simp at h
      | jnull => simp [parseDeptList] at h
      | jbool b => simp [parseDeptList] at h
      | jint n => simp [parseDeptList] at h
      | jstr str => simp [parseDeptList] at h
      | jarr xs => simp [parseDeptList] at h

/-- C4: every record produced by `parse_slots` carries a non-empty date
and a non-empty time, and a raw record whose date extraction (including
any propagated override) or time extraction comes up empty yields no
record — `parse_single_slot` returns `none`, not an error. -/
theorem parse_slots_presence :
    (∀ resp slots, parse_slots resp = .ok slots →
      ∀ s ∈ slots, s.date ≠ "" ∧ s.time ≠ "") ∧
    (∀ (f : List (String × JValue)) (ov : Option JValue) (pr dep did : JValue),
      (extractDate ov f = none ∨ extractTime f = none) →
      parse_single_slot (jobj f) ov pr dep did = none) := by
  constructor
  · intro resp slots h s hs
    cases resp with
    | jobj f =>
        simp only [parse_slots] at h
        split at h
        · simp at h
        · rename_i s1 h1
          split at h
          · simp at h
          · rename_i pitems hp
            split at h
            · simp at h
            · rename_i s2 h2
              split at h
              · simp at h
              · rename_i ditems hd
                split at h
                · simp at h
                · rename_i s3 h3
                  simp only [Except.ok.injEq] at h
                  subst h
                  rcases List.mem_append.mp hs with h12 | hs3
                  · rcases List.mem_append.mp h12 with hs1 | hs2
                    · exact parseContainers_ok h1 s hs1
                    · exact parseProviderList_ok h2 s hs2
                  · exact parseDeptList_ok h3 s hs3
    | jnull => simp [parse_slots] at h
    | jbool b => simp [parse_slots] at h
    | jint n => simp [parse_slots] at h
    | jstr str => simp [parse_slots] at h
    | jarr xs => simp [parse_slots] at h
  · intro f ov pr dep did hmiss
    rcases hmiss with hd | ht
    · simp [parse_single_slot, hd]
    · cases hd : extractDate ov f with
      | none => simp [parse_single_slot, hd]
      | some dv => simp [parse_single_slot, hd, ht]

/-- Witness for C4: a parsed record has non-empty date and time, and a
raw record with a time but no date is dropped without error. -/
theorem parse_slots_presence_witness :
    (({ date := "2026-08-05", time := "8:30 AM", provider := jstr "Dr. Rai" } :
        AppointmentSlot).date ≠ "" ∧
     ({ date := "2026-08-05", time := "8:30 AM", provider := jstr "Dr. Rai" } :
        AppointmentSlot).time ≠ "") ∧
    parse_single_slot (jobj [("Time", jstr "8:30 AM")]) none jnull jnull jnull = none :=
  ⟨parse_slots_presence.1
      (jobj [("Slots", jarr [jobj [("Date", jstr "2026-08-05"),
        ("Time", jstr "8:30 AM"), ("ProviderName", jstr "Dr. Rai")]])])
      [{ date := "2026-08-05", time := "8:30 AM", provider := jstr "Dr. Rai" }]
      (by rfl)
      { date := "2026-08-05", time := "8:30 AM", provider := jstr "Dr. Rai" }
      (by simp),
   parse_slots_presence.2 [("Time", jstr "8:30 AM")] none jnull jnull jnull
      (Or.inl rfl)⟩

/-! ## C8: grouping and ordering of the notification body -/

theorem flatMap_filter_perm (keys : List String) (l : List AppointmentSlot)
    (hnd : keys.Nodup) (hcov : ∀ s ∈ l, s.date ∈ keys) :
    (keys.flatMap (fun d => l.filter (fun s => s.date = d))).Perm l := by
  induction keys generalizing l with
  | nil =>
      have hl : l = [] := by
        cases l with
        | nil => rfl
        | cons s rest => exact absurd (hcov s (by simp)) (by simp)
      subst hl
      simp
  | cons d ks ih =>
      rw [List.flatMap_cons]
      have hd : d ∉ ks := (List.nodup_cons.mp hnd).1
      have hnd' : ks.Nodup := (List.nodup_cons.mp hnd).2
      have hrw : ks.flatMap (fun d' => l.filter (fun s => s.date = d')) =
          ks.flatMap (fun d' =>
            (l.filter (fun s => !(decide (s.date = d)))).filter (fun s => s.date = d')) := by
        apply List.flatMap_congr
        intro d' hd'
        rw [List.filter_filter]
        apply List.filter_congr
        intro s _
        by_cases hs : s.date = d'
        · have hdd : ¬ d' = d := fun hh => hd (hh ▸ hd')
          simp [hs, hdd]
        · simp [hs]
      rw [hrw]
      have hcov' : ∀ s ∈ l.filter (fun s => !(decide (s.date = d))), s.date ∈ ks := by
        intro s hs
        obtain ⟨hsl, hsd⟩ := List.mem_filter.mp hs
        have := hcov s hsl
        simp only [List.mem_cons] at this
        rcases this with hh | hh
        · simp [hh] at hsd
        · exact hh
      exact ((ih _ hnd' hcov').append_left (l.filter (fun s => s.date = d))).trans
        (List.filter_append_perm _ l)

/-- C8 counterexample: for two same-day slots at 8:30 AM and 10:00 AM the
issue body's group lists the 10:00 AM slot first, because the code sorts
by the raw time string; 10:00 AM (600 minutes into the day) is later in
time-of-day than 8:30 AM (510 minutes), so the group is not sorted by
time-of-day as the claim states. -/
theorem body_not_time_of_day_sorted :
    groupSlotsByDate [slotEightThirty, slotTenOClock] =
      [("2026-08-05", [slotTenOClock, slotEightThirty])] ∧
    specTimeOfDayMinutes slotTenOClock.time = some 600 ∧
    specTimeOfDayMinutes slotEightThirty.time = some 510 ∧
    510 < 600 := by
  refine ⟨by decide, by decide, by decide, by decide⟩

/-- C8 as amended: for every non-empty slot list the issue body's groups
are keyed by date in ascending lexicographic string order with no
duplicate date, every slot sits in the group of its own date, the groups
together contain exactly the input slots, and within each group the
slots are in ascending lexicographic order of their raw `time` string
(which for AM/PM-formatted times is not chronological time-of-day
order). -/
theorem body_grouping_sorted (slots : List AppointmentSlot) (hne : slots ≠ []) :
    ((groupSlotsByDate slots).map Prod.fst).Sorted strLe ∧
    ((groupSlotsByDate slots).map Prod.fst).Nodup ∧
    (∀ g ∈ groupSlotsByDate slots,
      g.2.Sorted slotTimeLe ∧ ∀ s ∈ g.2, s.date = g.1) ∧
    ((groupSlotsByDate slots).flatMap (fun g => g.2)).Perm slots := by
  refine ⟨?_, ?_, ?_, ?_⟩
  · have : (groupSlotsByDate slots).map Prod.fst =
        ((slots.map (fun s => s.date)).dedup).insertionSort strLe := by
      rw [groupSlotsByDate, List.map_map]
      show List.map id (((slots.map (fun s => s.date)).dedup).insertionSort strLe) = _
      exact List.map_id _
    rw [this]
    exact List.sorted_insertionSort strLe _
  · have : (groupSlotsByDate slots).map Prod.fst =
        ((slots.map (fun s => s.date)).dedup).insertionSort strLe := by
      rw [groupSlotsByDate, List.map_map]
      show List.map id (((slots.map (fun s => s.date)).dedup).insertionSort strLe) = _
      exact List.map_id _
    rw [this]
    exact (List.perm_insertionSort strLe _).nodup_iff.mpr (List.nodup_dedup _)
  · intro g hg
    obtain ⟨d, _, rfl⟩ := List.mem_map.mp hg
    refine ⟨List.sorted_insertionSort slotTimeLe _, ?_⟩
    intro s hs
    rw [List.mem_insertionSort] at hs
    exact of_decide_eq_true (List.mem_filter.mp hs).2
  · have h1 : (groupSlotsByDate slots).flatMap (fun g => g.2) =
        (((slots.map (fun s => s.date)).dedup).insertionSort strLe).flatMap
          (fun d => (slots.filter (fun s => s.date = d)).insertionSort slotTimeLe) := by
      rw [groupSlotsByDate, List.flatMap_map]
    rw [h1]
    have h2 : ((((slots.map (fun s => s.date)).dedup).insertionSort strLe).flatMap
        (fun d => (slots.filter (fun s => s.date = d)).insertionSort slotTimeLe)).Perm
        ((((slots.map (fun s => s.date)).dedup).insertionSort strLe).flatMap
          (fun d => slots.filter (fun s => s.date = d))) :=
      List.Perm.flatMap_left _ (fun d _ => List.perm_insertionSort slotTimeLe _)
    refine h2.trans (flatMap_filter_perm _ slots ?_ ?_)
    · exact (List.perm_insertionSort strLe _).nodup_iff.mpr (List.nodup_dedup _)
    · intro s hs
      rw [List.mem_insertionSort, List.mem_dedup]
      exact List.mem_map.mpr ⟨s, hs, rfl⟩

/-- Witness for the amended C8 at a concrete two-slot list. -/
theorem body_grouping_sorted_witness :
    ((groupSlotsByDate [slotEightThirty, slotTenOClock]).map Prod.fst).Sorted strLe ∧
    ((groupSlotsByDate [slotEightThirty, slotTenOClock]).map Prod.fst).Nodup ∧
    (∀ g ∈ groupSlotsByDate [slotEightThirty, slotTenOClock],
      g.2.Sorted slotTimeLe ∧ ∀ s ∈ g.2, s.date = g.1) ∧
    ((groupSlotsByDate [slotEightThirty, slotTenOClock]).flatMap
      (fun g => g.2)).Perm [slotEightThirty, slotTenOClock] :=
  body_grouping_sorted [slotEightThirty, slotTenOClock] (by decide)
